import Mathlib

/-!
Verification of the `dem-gmrf` pipeline (`src/dem-gmrf_main.cpp`).

The single C++ source file implements a batch DEM (digital elevation model)
estimation pipeline: load an N x nCols point table, compute a bounding box,
split the point indices into an insertion set and a checkpoint set, feed the
insertion points into an external GMRF field estimator (MRPT's
`CHeightGridMap2D_MRF`), solve once, validate against the checkpoints under
two interpolation policies, compute residual statistics, and write text
artifacts.

This development shallowly embeds that pipeline:
* machine `double` arithmetic is embedded as exact rational arithmetic `ℚ`
  (the claims under study are about the algorithm, not FP rounding);
* the two `std::sqrt` calls in the statistics produce real numbers `ℝ`;
* the wall-clock-seeded `std::random_shuffle` is embedded by quantifying over
  an arbitrary permutation `perm` of `List.range N`;
* the external field estimator's `predictMeasurement` is an abstract
  function parameter; its observable side effects (insert / solve / predict /
  file output) are recorded as an explicit event trace.
-/

namespace DemGmrf

/-! ## Sampling partitioner (main.cpp lines 117-134)

`mrpt::math::linspace((size_t)0, N-1, N, pts_indices)` fills `pts_indices`
with `0, 1, ..., N-1`; `std::random_shuffle` permutes it (embedded as an
arbitrary `perm` with `perm ~ List.range N`);
`N_chk_pts = mrpt::utils::round(chkpts_ratio * N)`;
`N_insert_pts = N - N_chk_pts`.  The first `N_insert_pts` shuffled indices
are the insertion set, the trailing `N_chk_pts` the checkpoint set. -/

/-- `mrpt::math::linspace((size_t)0, N-1, N, v)`: the identity index list. -/
def linspace_indices (N : ℕ) : List ℕ := List.range N

/-- `mrpt::utils::round`: round to the nearest integer (embedded as
Mathlib's `round`; the FP tie-breaking mode of `lrint` is immaterial to the
claims, which use a generic "round"), clamped to `ℕ` as the C++ result is
assigned to a `size_t`. -/
def mrpt_round (x : ℚ) : ℕ := (round x).toNat

/-- `const size_t N_chk_pts = mrpt::utils::round(chkpts_ratio * N);` -/
def N_chk_pts (ratio : ℚ) (N : ℕ) : ℕ := mrpt_round (ratio * N)

/-- `const size_t N_insert_pts = N - N_chk_pts;` -/
def N_insert_pts (ratio : ℚ) (N : ℕ) : ℕ := N - N_chk_pts ratio N

/-- The insertion set: the first `N - Nchk` entries of the shuffled index
list (the loop at lines 165-184 and 241-245 reads `pts_indices[k]` for
`k < N_insert_pts`). -/
def insertion_set (perm : List ℕ) (Nchk : ℕ) : List ℕ :=
  perm.take (perm.length - Nchk)

/-- The checkpoint set: the trailing `Nchk` entries of the shuffled index
list (the loops at lines 205-218 and 249-253 read
`pts_indices[k + N_insert_pts]` for `k < N_chk_pts`). -/
def checkpoint_set (perm : List ℕ) (Nchk : ℕ) : List ℕ :=
  perm.drop (perm.length - Nchk)

/-! Helper lemmas about `N_chk_pts`. -/

/-! ## Bounding box (main.cpp lines 85-114)

The scan initializes `minx, miny, minz` to `DBL_MAX` and `maxx, maxy, maxz`
to `-DBL_MAX`, then for each point updates x/y min/max unconditionally
(`keep_min` / `keep_max`) and the z min/max only when `std::abs(z) < 1e6`.
Afterwards each of the six bounds is moved outward by `BORDER = 10.0`. -/

/-- A 3-D input point `(x, y, z)` (one row of `raw_xyz`). -/
structure Pt3 where
  x : ℚ
  y : ℚ
  z : ℚ
deriving DecidableEq

/-- The six running bounds of the scan. -/
structure BBox where
  minx : ℚ
  maxx : ℚ
  miny : ℚ
  maxy : ℚ
  minz : ℚ
  maxz : ℚ
deriving DecidableEq

/-- `std::numeric_limits<double>::max()` (exact value of IEEE-754 binary64
`DBL_MAX`, embedded as a rational). -/
def DBL_MAX : ℚ := (2^1024 - 2^971 : ℚ)

/-- The z "no data" sentinel threshold `1e6` of line 101. -/
def Z_SENTINEL : ℚ := 1000000

/-- Initial bounds (lines 89-94). -/
def bbox_init : BBox :=
  { minx := DBL_MAX, maxx := -DBL_MAX
    miny := DBL_MAX, maxy := -DBL_MAX
    minz := DBL_MAX, maxz := -DBL_MAX }

/-- One iteration of the scan loop (lines 96-104): `keep_max`/`keep_min` on
x and y always, on z only when `|z| < 1e6`. -/
def bbox_step (b : BBox) (p : Pt3) : BBox :=
  { minx := min b.minx p.x, maxx := max b.maxx p.x
    miny := min b.miny p.y, maxy := max b.maxy p.y
    minz := if |p.z| < Z_SENTINEL then min b.minz p.z else b.minz
    maxz := if |p.z| < Z_SENTINEL then max b.maxz p.z else b.maxz }

/-- The whole scan over the point list. -/
def bbox_scan (pts : List Pt3) : BBox := pts.foldl bbox_step bbox_init

/-- `const double BORDER = 10.0;` -/
def BORDER : ℚ := 10

/-- Margin expansion (lines 106-109): every bound moved outward by
`BORDER`. -/
def bbox_expand (b : BBox) : BBox :=
  { minx := b.minx - BORDER, maxx := b.maxx + BORDER
    miny := b.miny - BORDER, maxy := b.maxy + BORDER
    minz := b.minz - BORDER, maxz := b.maxz + BORDER }

/-- The bounding box the pipeline actually uses. -/
def dem_bbox (pts : List Pt3) : BBox := bbox_expand (bbox_scan pts)

/-- A tiny concrete point table used by concrete instantiations: the entry
in row `i`, column `j` is `i + j`. -/
def raw_w : ℕ → ℕ → ℚ := fun i j => i + j

/-! Scan invariants, by induction on the point list with a generalized
accumulator. -/

/-! ## Residual statistics (`do_residuals_stats`, main.cpp lines 290-309) -/

/-- Eigen `r.maxCoeff()`: maximum coefficient of a vector (Eigen requires
the vector to be nonempty; the `[]` branch is never reached under the
guard at line 296). -/
def maxCoeff (r : List ℚ) : ℚ :=
  match r with
  | [] => 0
  | h :: t => t.foldl max h

/-- Eigen `r.minCoeff()`. -/
def minCoeff (r : List ℚ) : ℚ :=
  match r with
  | [] => 0
  | h :: t => t.foldl min h

/-- Modelled from the spec: `mrpt::math::meanAndStd` is MRPT library code,
not part of this repository.  Per the spec (§4.5) it returns the sample
mean and the sample standard deviation of the collection (unbiased `N-1`
divisor); for fewer than two elements the standard deviation is 0 and the
mean is the single element (or 0 when empty). -/
noncomputable def meanAndStd (v : List ℚ) : ℚ × ℝ :=
  if v.length < 2 then (v.headD 0, 0)
  else
    let m := v.sum / v.length
    (m, Real.sqrt (((v.map (fun x => (x - m) ^ 2)).sum / ((v.length : ℚ) - 1) : ℚ)))

/-- Lines 305-308: `std::nth_element(v.begin(), v.begin()+N/2, v.end());
stats[5] = v[N/2];`.  `nth_element` places at position `N/2` exactly the
element that a full ascending sort would put there, so the embedding sorts
and indexes. -/
def median_nth (r : List ℚ) : ℚ :=
  (r.mergeSort (fun a b => decide (a ≤ b))).getD (r.length / 2) 0

/-- The header string written at line 292. -/
def stats_file_hdr : String :=
  "% MAX_ABS_ERR   MIN_ABS_ERR   AVERAGE_ERR   STD_DEV   RMSE    MEDIAN\n"

/-- `do_residuals_stats` (lines 290-309).  `stats.resize(6)` allocates six
coefficients that Eigen leaves uninitialized (`PlainObjectBase::resize`
does not initialize coefficients); the unspecified contents are the
`uninit` parameter.  On an empty input the function returns right after
the resize (line 296); otherwise all six entries are overwritten. -/
noncomputable def do_residuals_stats (uninit : Fin 6 → ℝ) (r : List ℚ) : List ℝ :=
  if r.length = 0 then List.ofFn uninit
  else
    [((maxCoeff r : ℚ) : ℝ),
     ((minCoeff r : ℚ) : ℝ),
     (((meanAndStd r).1 : ℚ) : ℝ),
     (meanAndStd r).2,
     Real.sqrt ((((r.map (fun x => x ^ 2)).sum / (r.length : ℚ) : ℚ)) : ℝ),
     ((median_nth r : ℚ) : ℝ)]

/-! ## Pipeline event trace (`dem_gmrf_main`, main.cpp lines 53-288)

The pipeline's interactions with the external field estimator and the file
system are recorded as an explicit event trace.  The wall-clock-seeded
shuffle outcome is the `perm` parameter; the estimator's posterior mean at
a query point (after all insertions and the solve) is the abstract
`predictZ` parameter.  The GUI block (lines 262-286) only renders the
finished map on screen and is skippable (`--no-gui`); it emits no events.
MRPT `ASSERT_` macros throw, `main` (lines 312-320) catches any exception
and returns 1; a completed run returns 0 (line 287). -/

/-- The two interpolation policies of `predictMeasurement` (lines 211, 216). -/
inductive Interp where
  | nearest
  | bilinear
deriving DecidableEq

/-- One observable pipeline effect. -/
inductive Event where
  /-- `dem_map.insertIndividualReading(z, TPoint2D(x,y), updateNow,
  timeInvariant, stddev)` for table row `ptIdx` (lines 178-183). -/
  | insert (ptIdx : ℕ) (z x y : ℚ) (updateNow timeInvariant : Bool) (stddev : ℚ)
  /-- `dem_map.updateMapEstimation()` (line 192): the single batch solve. -/
  | solve
  /-- `dem_map.predictMeasurement(x, y, ..., interp)` (lines 211, 216). -/
  | predict (x y : ℚ) (interp : Interp)
  /-- A plain-text output file, identified by its suffix after the output
  prefix, with its number of data lines. -/
  | writeText (sfx : String) (numLines : ℕ)
  /-- `saveMetricMapRepresentationToFile` / `saveAsMatlab3DGraph`
  (lines 256-257): opaque map artifacts. -/
  | saveArtifact (sfx : String)
deriving DecidableEq

/-- Outcome of a run: normal return code, or an uncaught MRPT `ASSERT_`
exception (caught by `main`, which prints it and returns 1). -/
inductive RunResult where
  | ok (exitCode : ℕ)
  | fatal
deriving DecidableEq

/-- The process exit status (`main`, lines 312-320). -/
def RunResult.exitCode : RunResult → ℕ
  | .ok c => c
  | .fatal => 1

def Event.isInsert : Event → Bool
  | .insert .. => true
  | _ => false

def Event.isSolve : Event → Bool
  | .solve => true
  | _ => false

def Event.isPredict : Event → Bool
  | .predict .. => true
  | _ => false

/-- A nearest-cell prediction query. -/
def Event.isPredictNN : Event → Bool
  | .predict _ _ .nearest => true
  | _ => false

/-- A bilinear prediction query. -/
def Event.isPredictBi : Event → Bool
  | .predict _ _ .bilinear => true
  | _ => false

/-- The observation stddev used for table row `i` (lines 79-83 and
170-176): the configured default when the table has exactly 3 columns
(`all_readings_same_stddev`), otherwise the row's 4th column. -/
def reading_stddev (raw : ℕ → ℕ → ℚ) (nCols : ℕ) (std_obs : ℚ) (i : ℕ) : ℚ :=
  if nCols = 3 then std_obs else raw i 3

/-- Step [5] (lines 165-184): insert the first `nIns` shuffled rows, each
with `updateNow = false` and `timeInvariant = true`. -/
def insert_events (raw : ℕ → ℕ → ℚ) (nCols : ℕ) (std_obs : ℚ)
    (perm : List ℕ) (nIns : ℕ) : List Event :=
  (List.range nIns).map (fun k =>
    let i := perm.getD k 0
    .insert i (raw i 2) (raw i 0) (raw i 1) false true
      (reading_stddev raw nCols std_obs i))

/-- The table row index of checkpoint `k`:
`pts_indices[k + N_insert_pts]` (lines 207, 251). -/
def chk_index (perm : List ℕ) (nIns k : ℕ) : ℕ := perm.getD (k + nIns) 0

/-- Step [7] loop (lines 205-218): for each checkpoint, one nearest-cell
query then one bilinear query at the point's `(x, y)`. -/
def predict_events (raw : ℕ → ℕ → ℚ) (perm : List ℕ) (nIns nChk : ℕ) :
    List Event :=
  (List.range nChk).flatMap (fun k =>
    let i := chk_index perm nIns k
    [.predict (raw i 0) (raw i 1) .nearest,
     .predict (raw i 0) (raw i 1) .bilinear])

/-- `residuals_NN[k] = raw_xyz(i,2) - dem_z_NN` (line 212). -/
def residuals_NN (raw : ℕ → ℕ → ℚ) (predictZ : Interp → ℚ → ℚ → ℚ)
    (perm : List ℕ) (nIns nChk : ℕ) : List ℚ :=
  (List.range nChk).map (fun k =>
    let i := chk_index perm nIns k
    raw i 2 - predictZ .nearest (raw i 0) (raw i 1))

/-- `residuals_Bi[k] = raw_xyz(i,2) - dem_z_Bi` (line 217). -/
def residuals_Bi (raw : ℕ → ℕ → ℚ) (predictZ : Interp → ℚ → ℚ → ℚ)
    (perm : List ℕ) (nIns nChk : ℕ) : List ℚ :=
  (List.range nChk).map (fun k =>
    let i := chk_index perm nIns k
    raw i 2 - predictZ .bilinear (raw i 0) (raw i 1))

/-- Modelled from the spec: `CHeightGridMap2D_MRF::setSize` is MRPT library
code, not part of this repository; per the spec (§4.4, §7) "resize with
non-positive resolution signals `InvalidConfiguration`". -/
def setSize_resolution_ok (resolution : ℚ) : Prop := 0 < resolution

instance (resolution : ℚ) : Decidable (setSize_resolution_ok resolution) :=
  inferInstanceAs (Decidable (0 < resolution))

/-- The observable run of `dem_gmrf_main` after the dataset has been loaded
into the `N × nCols` table `raw` (the row-`i`, column-`j` entry is
`raw i j`).  Returns the event trace and the run outcome.  The three guards
are, in program order: `ASSERT_(nCols >= 3)` (line 77),
`ASSERT_(chkpts_ratio >= 0.0 && chkpts_ratio <= 1.0)` (line 122), and the
estimator's resolution validation inside `setSize` (line 152); all fire
before any estimator or file-output effect.  A surviving run emits the
step [5] insertions, the single step [6] solve, the step [7] validation
block only when the checkpoint set is nonempty (line 198), and the
unconditional step [9] outputs, then returns 0. -/
def dem_gmrf_run (raw : ℕ → ℕ → ℚ) (N nCols : ℕ) (perm : List ℕ)
    (ratio resolution std_obs : ℚ) :
    List Event × RunResult :=
  if nCols < 3 then ([], .fatal)
  else if ¬ (0 ≤ ratio ∧ ratio ≤ 1) then ([], .fatal)
  else if ¬ setSize_resolution_ok resolution then ([], .fatal)
  else
    let nChk := N_chk_pts ratio N
    let nIns := N - nChk
    (insert_events raw nCols std_obs perm nIns ++
     [Event.solve] ++
     (if nChk ≠ 0 then
        predict_events raw perm nIns nChk ++
        [.writeText "_chkpt_residuals_NN.txt" nChk,
         .writeText "_chkpt_residuals_Bi.txt" nChk,
         .writeText "_chkpt_residuals_NN_stats.txt" 6,
         .writeText "_chkpt_residuals_Bi_stats.txt" 6]
      else []) ++
     [.writeText "_pts_map.txt" nIns,
      .writeText "_pts_chk.txt" nChk,
      .saveArtifact "_grmf",
      .saveArtifact "_grmf_draw.m"],
     .ok 0)

/-! ## Theorems: partitioner (C1) -/

lemma round_nonneg_of_nonneg {x : ℚ} (hx : 0 ≤ x) : 0 ≤ round x := by
  rw [round_eq]
  have : (0 : ℤ) = ⌊(0 : ℚ) + 1/2⌋ := by norm_num
  rw [this]
  exact Int.floor_le_floor (by linarith)

lemma N_chk_pts_le (ratio : ℚ) (N : ℕ) (h1 : ratio ≤ 1) :
    N_chk_pts ratio N ≤ N := by
  unfold N_chk_pts mrpt_round
  have hle : ratio * (N : ℚ) ≤ (N : ℚ) := by
    nlinarith [Nat.cast_nonneg (α := ℚ) N]
  have : round (ratio * (N : ℚ)) ≤ round ((N : ℚ)) := by
    rw [round_eq, round_eq]
    exact Int.floor_le_floor (by linarith)
  have hN : round ((N : ℚ)) = (N : ℤ) := by
    simp
  omega

lemma N_chk_pts_ratio_zero (N : ℕ) : N_chk_pts 0 N = 0 := by
  unfold N_chk_pts mrpt_round
  norm_num

/-- C1, main theorem.  For any `N ≥ 1`, any checkpoint ratio in `[0,1]` and
any outcome `perm` of the shuffle (any permutation of `[0,N)`), the
checkpoint set has exactly `round(ratio*N)` indices, the insertion set the
remaining `N - round(ratio*N)`, the two are disjoint, and together they are
exactly the index set `[0,N)` with no duplicates. -/
theorem partition_correct (N : ℕ) (ratio : ℚ) (perm : List ℕ)
    (hN : 1 ≤ N) (h0 : 0 ≤ ratio) (h1 : ratio ≤ 1)
    (hperm : perm.Perm (List.range N)) :
    (checkpoint_set perm (N_chk_pts ratio N)).length = N_chk_pts ratio N ∧
    (insertion_set perm (N_chk_pts ratio N)).length = N - N_chk_pts ratio N ∧
    (insertion_set perm (N_chk_pts ratio N)).Disjoint
      (checkpoint_set perm (N_chk_pts ratio N)) ∧
    (insertion_set perm (N_chk_pts ratio N) ++
      checkpoint_set perm (N_chk_pts ratio N)).Perm (linspace_indices N) ∧
    (insertion_set perm (N_chk_pts ratio N) ++
      checkpoint_set perm (N_chk_pts ratio N)).Nodup := by
  have hlen : perm.length = N :=
    hperm.length_eq.trans (List.length_range N)
  have hchk : N_chk_pts ratio N ≤ N := N_chk_pts_le ratio N h1
  have happ : insertion_set perm (N_chk_pts ratio N) ++
      checkpoint_set perm (N_chk_pts ratio N) = perm := by
    simp [insertion_set, checkpoint_set]
  have hperm' : (insertion_set perm (N_chk_pts ratio N) ++
      checkpoint_set perm (N_chk_pts ratio N)).Perm (linspace_indices N) := by
    rw [happ]; exact hperm
  have hnodup : (insertion_set perm (N_chk_pts ratio N) ++
      checkpoint_set perm (N_chk_pts ratio N)).Nodup := by
    rw [happ]
    exact hperm.nodup_iff.mpr (List.nodup_range N)
  refine ⟨?_, ?_, ?_, hperm', hnodup⟩
  · simp only [checkpoint_set, List.length_drop, hlen]
    omega
  · simp only [insertion_set, List.length_take, hlen]
    omega
  · exact List.disjoint_of_nodup_append hnodup

/-- C1, witness: `N = 4`, `ratio = 1/2`, shuffle outcome `[2,0,3,1]`. -/
theorem partition_correct_witness :
    1 ≤ 4 ∧ (0 : ℚ) ≤ 1/2 ∧ (1/2 : ℚ) ≤ 1 ∧
      ([2,0,3,1] : List ℕ).Perm (List.range 4) ∧
      ((checkpoint_set [2,0,3,1] (N_chk_pts (1/2) 4)).length =
          N_chk_pts (1/2) 4 ∧
        (insertion_set [2,0,3,1] (N_chk_pts (1/2) 4)).length =
          4 - N_chk_pts (1/2) 4 ∧
        (insertion_set [2,0,3,1] (N_chk_pts (1/2) 4)).Disjoint
          (checkpoint_set [2,0,3,1] (N_chk_pts (1/2) 4)) ∧
        (insertion_set [2,0,3,1] (N_chk_pts (1/2) 4) ++
          checkpoint_set [2,0,3,1] (N_chk_pts (1/2) 4)).Perm
            (linspace_indices 4) ∧
        (insertion_set [2,0,3,1] (N_chk_pts (1/2) 4) ++
          checkpoint_set [2,0,3,1] (N_chk_pts (1/2) 4)).Nodup) :=
  ⟨by decide, by norm_num, by norm_num, by decide,
    partition_correct 4 (1/2) [2,0,3,1] (by decide) (by norm_num) (by norm_num)
      (by decide)⟩

lemma bbox_fold_minx_le (pts : List Pt3) (b : BBox) :
    (pts.foldl bbox_step b).minx ≤ b.minx := by
  induction pts generalizing b with
  | nil => exact le_rfl
  | cons p t ih =>
      exact le_trans (ih (bbox_step b p)) (min_le_left _ _)

lemma bbox_fold_maxx_ge (pts : List Pt3) (b : BBox) :
    b.maxx ≤ (pts.foldl bbox_step b).maxx := by
  induction pts generalizing b with
  | nil => exact le_rfl
  | cons p t ih =>
      exact le_trans (le_max_left _ _) (ih (bbox_step b p))

lemma bbox_fold_miny_le (pts : List Pt3) (b : BBox) :
    (pts.foldl bbox_step b).miny ≤ b.miny := by
  induction pts generalizing b with
  | nil => exact le_rfl
  | cons p t ih =>
      exact le_trans (ih (bbox_step b p)) (min_le_left _ _)

lemma bbox_fold_maxy_ge (pts : List Pt3) (b : BBox) :
    b.maxy ≤ (pts.foldl bbox_step b).maxy := by
  induction pts generalizing b with
  | nil => exact le_rfl
  | cons p t ih =>
      exact le_trans (le_max_left _ _) (ih (bbox_step b p))

lemma bbox_fold_mem_x (pts : List Pt3) (b : BBox) (p : Pt3) (hp : p ∈ pts) :
    (pts.foldl bbox_step b).minx ≤ p.x ∧ p.x ≤ (pts.foldl bbox_step b).maxx := by
  induction pts generalizing b with
  | nil => cases hp
  | cons q t ih =>
      rcases List.mem_cons.mp hp with rfl | hp'
      · constructor
        · exact le_trans (bbox_fold_minx_le t (bbox_step b p)) (min_le_right _ _)
        · exact le_trans (le_max_right _ _) (bbox_fold_maxx_ge t (bbox_step b p))
      · exact ih (bbox_step b q) hp'

lemma bbox_fold_mem_y (pts : List Pt3) (b : BBox) (p : Pt3) (hp : p ∈ pts) :
    (pts.foldl bbox_step b).miny ≤ p.y ∧ p.y ≤ (pts.foldl bbox_step b).maxy := by
  induction pts generalizing b with
  | nil => cases hp
  | cons q t ih =>
      rcases List.mem_cons.mp hp with rfl | hp'
      · constructor
        · exact le_trans (bbox_fold_miny_le t (bbox_step b p)) (min_le_right _ _)
        · exact le_trans (le_max_right _ _) (bbox_fold_maxy_ge t (bbox_step b p))
      · exact ih (bbox_step b q) hp'

/-- The z-bounds of the fold are exactly a min/max fold over the z values of
the sentinel-filtered points. -/
lemma bbox_fold_minz_eq (pts : List Pt3) (b : BBox) :
    (pts.foldl bbox_step b).minz =
      ((pts.filter (fun p => |p.z| < Z_SENTINEL)).map Pt3.z).foldl min b.minz := by
  induction pts generalizing b with
  | nil => rfl
  | cons q t ih =>
      by_cases hq : |q.z| < Z_SENTINEL
      · rw [List.foldl_cons, ih (bbox_step b q)]
        simp [List.filter_cons, hq, bbox_step]
      · rw [List.foldl_cons, ih (bbox_step b q)]
        simp [List.filter_cons, hq, bbox_step]

lemma bbox_fold_maxz_eq (pts : List Pt3) (b : BBox) :
    (pts.foldl bbox_step b).maxz =
      ((pts.filter (fun p => |p.z| < Z_SENTINEL)).map Pt3.z).foldl max b.maxz := by
  induction pts generalizing b with
  | nil => rfl
  | cons q t ih =>
      by_cases hq : |q.z| < Z_SENTINEL
      · rw [List.foldl_cons, ih (bbox_step b q)]
        simp [List.filter_cons, hq, bbox_step]
      · rw [List.foldl_cons, ih (bbox_step b q)]
        simp [List.filter_cons, hq, bbox_step]

lemma foldl_min_le_init (zs : List ℚ) (a : ℚ) : zs.foldl min a ≤ a := by
  induction zs generalizing a with
  | nil => exact le_rfl
  | cons z t ih => exact le_trans (ih (min a z)) (min_le_left _ _)

lemma foldl_min_le_mem (zs : List ℚ) (a z : ℚ) (hz : z ∈ zs) :
    zs.foldl min a ≤ z := by
  induction zs generalizing a with
  | nil => cases hz
  | cons w t ih =>
      rcases List.mem_cons.mp hz with rfl | hz'
      · exact le_trans (foldl_min_le_init t (min a z)) (min_le_right _ _)
      · exact ih (min a w) hz'

lemma foldl_min_attained (zs : List ℚ) (a : ℚ) :
    zs.foldl min a = a ∨ ∃ z ∈ zs, zs.foldl min a = z := by
  induction zs generalizing a with
  | nil => exact Or.inl rfl
  | cons w t ih =>
      rcases ih (min a w) with h | ⟨z, hz, hfold⟩
      · rcases min_cases a w with ⟨hmin, _⟩ | ⟨hmin, _⟩
        · exact Or.inl (by simpa [hmin] using h)
        · exact Or.inr ⟨w, List.mem_cons_self _ _, by simpa [hmin] using h⟩
      · exact Or.inr ⟨z, List.mem_cons_of_mem _ hz, hfold⟩

lemma init_le_foldl_max (zs : List ℚ) (a : ℚ) : a ≤ zs.foldl max a := by
  induction zs generalizing a with
  | nil => exact le_rfl
  | cons z t ih => exact le_trans (le_max_left _ _) (ih (max a z))

lemma mem_le_foldl_max (zs : List ℚ) (a z : ℚ) (hz : z ∈ zs) :
    z ≤ zs.foldl max a := by
  induction zs generalizing a with
  | nil => cases hz
  | cons w t ih =>
      rcases List.mem_cons.mp hz with rfl | hz'
      · exact le_trans (le_max_right _ _) (init_le_foldl_max t (max a z))
      · exact ih (max a w) hz'

lemma foldl_max_attained (zs : List ℚ) (a : ℚ) :
    zs.foldl max a = a ∨ ∃ z ∈ zs, zs.foldl max a = z := by
  induction zs generalizing a with
  | nil => exact Or.inl rfl
  | cons w t ih =>
      rcases ih (max a w) with h | ⟨z, hz, hfold⟩
      · rcases max_cases a w with ⟨hmax, _⟩ | ⟨hmax, _⟩
        · exact Or.inl (by simpa [hmax] using h)
        · exact Or.inr ⟨w, List.mem_cons_self _ _, by simpa [hmax] using h⟩
      · exact Or.inr ⟨z, List.mem_cons_of_mem _ hz, hfold⟩

/-- C3, main theorem.  After the scan and the margin expansion:
every point's x and y lie inside the box; the z-bounds are exactly the
min/max over the points passing the `|z| < 1e6` sentinel test (stated as:
they bound every such point and are attained by one, shifted by the
border); and every axis bound is the corresponding scan bound moved outward
by the fixed `BORDER = 10`. -/
theorem bbox_correct (pts : List Pt3)
    (hne : (pts.filter (fun p => |p.z| < Z_SENTINEL)) ≠ []) :
    (∀ p ∈ pts,
       (dem_bbox pts).minx ≤ p.x ∧ p.x ≤ (dem_bbox pts).maxx ∧
       (dem_bbox pts).miny ≤ p.y ∧ p.y ≤ (dem_bbox pts).maxy) ∧
    (∀ p ∈ pts, |p.z| < Z_SENTINEL →
       (dem_bbox pts).minz ≤ p.z - BORDER ∧
       p.z + BORDER ≤ (dem_bbox pts).maxz) ∧
    (∃ p ∈ pts, |p.z| < Z_SENTINEL ∧ (dem_bbox pts).minz = p.z - BORDER) ∧
    (∃ p ∈ pts, |p.z| < Z_SENTINEL ∧ (dem_bbox pts).maxz = p.z + BORDER) ∧
    ((dem_bbox pts).minx = (bbox_scan pts).minx - BORDER ∧
     (dem_bbox pts).maxx = (bbox_scan pts).maxx + BORDER ∧
     (dem_bbox pts).miny = (bbox_scan pts).miny - BORDER ∧
     (dem_bbox pts).maxy = (bbox_scan pts).maxy + BORDER ∧
     (dem_bbox pts).minz = (bbox_scan pts).minz - BORDER ∧
     (dem_bbox pts).maxz = (bbox_scan pts).maxz + BORDER) := by
  have hB : (0 : ℚ) < BORDER := by norm_num [BORDER]
  obtain ⟨q0, hq0⟩ : ∃ q, q ∈ pts.filter (fun p => |p.z| < Z_SENTINEL) := by
    cases h : pts.filter (fun p => |p.z| < Z_SENTINEL) with
    | nil => exact absurd h hne
    | cons a t => exact ⟨a, h ▸ List.mem_cons_self a t⟩
  refine ⟨?_, ?_, ?_, ?_, ?_⟩
  · intro p hp
    have hx := bbox_fold_mem_x pts bbox_init p hp
    have hy := bbox_fold_mem_y pts bbox_init p hp
    refine ⟨?_, ?_, ?_, ?_⟩ <;>
      simp only [dem_bbox, bbox_expand, bbox_scan] at * <;> linarith [hx.1, hx.2, hy.1, hy.2]
  · intro p hp hpz
    have hzmem : p.z ∈ (pts.filter (fun p => |p.z| < Z_SENTINEL)).map Pt3.z :=
      List.mem_map_of_mem Pt3.z (List.mem_filter.mpr ⟨hp, by simpa using hpz⟩)
    have h1 := foldl_min_le_mem _ bbox_init.minz _ hzmem
    have h2 := mem_le_foldl_max _ bbox_init.maxz _ hzmem
    rw [← bbox_fold_minz_eq] at h1
    rw [← bbox_fold_maxz_eq] at h2
    constructor
    · simp only [dem_bbox, bbox_expand, bbox_scan]; linarith
    · simp only [dem_bbox, bbox_expand, bbox_scan]; linarith
  · rcases foldl_min_attained
        ((pts.filter (fun p => |p.z| < Z_SENTINEL)).map Pt3.z) bbox_init.minz with
      h | ⟨z, hz, hfold⟩
    · -- the fold cannot stay at the `DBL_MAX` sentinel: `q0` pushes it below
      exfalso
      have hzmem : q0.z ∈ (pts.filter (fun p => |p.z| < Z_SENTINEL)).map Pt3.z :=
        List.mem_map_of_mem Pt3.z hq0
      have h1 := foldl_min_le_mem _ bbox_init.minz _ hzmem
      have hq0z : |q0.z| < Z_SENTINEL := by
        have := (List.mem_filter.mp hq0).2
        simpa using this
      have : q0.z < DBL_MAX := by
        have h2 : q0.z < Z_SENTINEL := lt_of_le_of_lt (le_abs_self _) hq0z
        have : Z_SENTINEL < DBL_MAX := by norm_num [Z_SENTINEL, DBL_MAX]
        linarith
      rw [h] at h1
      simp only [bbox_init] at h1
      linarith
    · obtain ⟨p, hpmem, hpz⟩ := List.mem_map.mp hz
      refine ⟨p, (List.mem_filter.mp hpmem).1, ?_, ?_⟩
      · have := (List.mem_filter.mp hpmem).2
        simpa using this
      · simp only [dem_bbox, bbox_expand, bbox_scan, bbox_fold_minz_eq]
        rw [show (bbox_init).minz = DBL_MAX from rfl] at *
        rw [hfold, hpz]
  · rcases foldl_max_attained
        ((pts.filter (fun p => |p.z| < Z_SENTINEL)).map Pt3.z) bbox_init.maxz with
      h | ⟨z, hz, hfold⟩
    · exfalso
      have hzmem : q0.z ∈ (pts.filter (fun p => |p.z| < Z_SENTINEL)).map Pt3.z :=
        List.mem_map_of_mem Pt3.z hq0
      have h1 := mem_le_foldl_max _ bbox_init.maxz _ hzmem
      have hq0z : |q0.z| < Z_SENTINEL := by
        have := (List.mem_filter.mp hq0).2
        simpa using this
      have : -DBL_MAX < q0.z := by
        have h2 : -Z_SENTINEL < q0.z := neg_lt_of_abs_lt hq0z
        have : Z_SENTINEL < DBL_MAX := by norm_num [Z_SENTINEL, DBL_MAX]
        linarith
      rw [h] at h1
      simp only [bbox_init] at h1
      linarith
    · obtain ⟨p, hpmem, hpz⟩ := List.mem_map.mp hz
      refine ⟨p, (List.mem_filter.mp hpmem).1, ?_, ?_⟩
      · have := (List.mem_filter.mp hpmem).2
        simpa using this
      · simp only [dem_bbox, bbox_expand, bbox_scan, bbox_fold_maxz_eq]
        rw [hfold, hpz]
  · exact ⟨rfl, rfl, rfl, rfl, rfl, rfl⟩

/-- C3, witness: two points, the second carrying the raster no-data
sentinel `z = 2e6` (excluded from the z-bounds). -/
theorem bbox_correct_witness :
    (([⟨0, 0, 5⟩, ⟨3, 1, 2000000⟩] : List Pt3).filter
        (fun p => |p.z| < Z_SENTINEL) ≠ []) ∧
    ((∀ p ∈ ([⟨0, 0, 5⟩, ⟨3, 1, 2000000⟩] : List Pt3),
       (dem_bbox [⟨0, 0, 5⟩, ⟨3, 1, 2000000⟩]).minx ≤ p.x ∧
       p.x ≤ (dem_bbox [⟨0, 0, 5⟩, ⟨3, 1, 2000000⟩]).maxx ∧
       (dem_bbox [⟨0, 0, 5⟩, ⟨3, 1, 2000000⟩]).miny ≤ p.y ∧
       p.y ≤ (dem_bbox [⟨0, 0, 5⟩, ⟨3, 1, 2000000⟩]).maxy) ∧
    (∀ p ∈ ([⟨0, 0, 5⟩, ⟨3, 1, 2000000⟩] : List Pt3), |p.z| < Z_SENTINEL →
       (dem_bbox [⟨0, 0, 5⟩, ⟨3, 1, 2000000⟩]).minz ≤ p.z - BORDER ∧
       p.z + BORDER ≤ (dem_bbox [⟨0, 0, 5⟩, ⟨3, 1, 2000000⟩]).maxz) ∧
    (∃ p ∈ ([⟨0, 0, 5⟩, ⟨3, 1, 2000000⟩] : List Pt3), |p.z| < Z_SENTINEL ∧
       (dem_bbox [⟨0, 0, 5⟩, ⟨3, 1, 2000000⟩]).minz = p.z - BORDER) ∧
    (∃ p ∈ ([⟨0, 0, 5⟩, ⟨3, 1, 2000000⟩] : List Pt3), |p.z| < Z_SENTINEL ∧
       (dem_bbox [⟨0, 0, 5⟩, ⟨3, 1, 2000000⟩]).maxz = p.z + BORDER) ∧
    ((dem_bbox [⟨0, 0, 5⟩, ⟨3, 1, 2000000⟩]).minx =
        (bbox_scan [⟨0, 0, 5⟩, ⟨3, 1, 2000000⟩]).minx - BORDER ∧
     (dem_bbox [⟨0, 0, 5⟩, ⟨3, 1, 2000000⟩]).maxx =
        (bbox_scan [⟨0, 0, 5⟩, ⟨3, 1, 2000000⟩]).maxx + BORDER ∧
     (dem_bbox [⟨0, 0, 5⟩, ⟨3, 1, 2000000⟩]).miny =
        (bbox_scan [⟨0, 0, 5⟩, ⟨3, 1, 2000000⟩]).miny - BORDER ∧
     (dem_bbox [⟨0, 0, 5⟩, ⟨3, 1, 2000000⟩]).maxy =
        (bbox_scan [⟨0, 0, 5⟩, ⟨3, 1, 2000000⟩]).maxy + BORDER ∧
     (dem_bbox [⟨0, 0, 5⟩, ⟨3, 1, 2000000⟩]).minz =
        (bbox_scan [⟨0, 0, 5⟩, ⟨3, 1, 2000000⟩]).minz - BORDER ∧
     (dem_bbox [⟨0, 0, 5⟩, ⟨3, 1, 2000000⟩]).maxz =
        (bbox_scan [⟨0, 0, 5⟩, ⟨3, 1, 2000000⟩]).maxz + BORDER)) :=
  ⟨by decide, bbox_correct [⟨0, 0, 5⟩, ⟨3, 1, 2000000⟩] (by decide)⟩

/-! ## Theorems: residual statistics (C2, C4) -/

lemma do_residuals_stats_cons (uninit : Fin 6 → ℝ) (h : ℚ) (t : List ℚ) :
    do_residuals_stats uninit (h :: t) =
      [((maxCoeff (h :: t) : ℚ) : ℝ),
       ((minCoeff (h :: t) : ℚ) : ℝ),
       (((meanAndStd (h :: t)).1 : ℚ) : ℝ),
       (meanAndStd (h :: t)).2,
       Real.sqrt (((((h :: t).map (fun x => x ^ 2)).sum /
          ((h :: t).length : ℚ) : ℚ)) : ℝ),
       ((median_nth (h :: t) : ℚ) : ℝ)] := by
  simp [do_residuals_stats]

lemma meanAndStd_fst (v : List ℚ) (hv : v ≠ []) :
    (meanAndStd v).1 = v.sum / v.length := by
  unfold meanAndStd
  by_cases hlen : v.length < 2
  · rw [if_pos hlen]
    obtain ⟨a, rfl⟩ : ∃ a, v = [a] := by
      cases v with
      | nil => exact absurd rfl hv
      | cons h t =>
          cases t with
          | nil => exact ⟨h, rfl⟩
          | cons h2 t2 => simp at hlen; omega
    simp
  · rw [if_neg hlen]

lemma meanAndStd_snd_of_two_le (v : List ℚ) (hv : 2 ≤ v.length) :
    (meanAndStd v).2 =
      Real.sqrt (((v.map (fun x => (x - v.sum / v.length) ^ 2)).sum /
        ((v.length : ℚ) - 1) : ℚ)) := by
  unfold meanAndStd
  rw [if_neg (by omega)]

lemma meanAndStd_snd_of_lt_two (v : List ℚ) (hv : v.length < 2) :
    (meanAndStd v).2 = 0 := by
  unfold meanAndStd
  rw [if_pos hv]

/-- C2, main theorem.  On a nonempty residual collection the statistics
vector has six entries which are, in order: the maximum of the collection;
its minimum; its sample mean `sum/N`; its sample standard deviation
(unbiased `N-1` divisor for `N ≥ 2`, and `0` for the degenerate `N = 1`);
`RMSE = sqrt(mean of squares)`; and the median taken as the entry at
position `⌊N/2⌋` of the collection sorted ascending (never an average of
two middle elements). -/
theorem residual_stats_correct (uninit : Fin 6 → ℝ) (r : List ℚ) (hr : r ≠ []) :
    (do_residuals_stats uninit r).length = 6 ∧
    (∃ m ∈ r, (∀ x ∈ r, x ≤ m) ∧
      (do_residuals_stats uninit r).getD 0 0 = (m : ℝ)) ∧
    (∃ m ∈ r, (∀ x ∈ r, m ≤ x) ∧
      (do_residuals_stats uninit r).getD 1 0 = (m : ℝ)) ∧
    (do_residuals_stats uninit r).getD 2 0 = ((r.sum / r.length : ℚ) : ℝ) ∧
    (2 ≤ r.length →
      (do_residuals_stats uninit r).getD 3 0 =
        Real.sqrt (((r.map (fun x => (x - r.sum / r.length) ^ 2)).sum /
          ((r.length : ℚ) - 1) : ℚ))) ∧
    (r.length = 1 → (do_residuals_stats uninit r).getD 3 0 = 0) ∧
    (do_residuals_stats uninit r).getD 4 0 =
      Real.sqrt ((r.map (fun x => x ^ 2)).sum / (r.length : ℚ) : ℚ) ∧
    (∃ w : List ℚ, w.Perm r ∧ w.Sorted (· ≤ ·) ∧
      (do_residuals_stats uninit r).getD 5 0 =
        ((w.getD (r.length / 2) 0 : ℚ) : ℝ)) := by
  obtain ⟨h, t, rfl⟩ : ∃ h t, r = h :: t := by
    cases r with
    | nil => exact absurd rfl hr
    | cons h t => exact ⟨h, t, rfl⟩
  rw [do_residuals_stats_cons]
  refine ⟨rfl, ?_, ?_, ?_, ?_, ?_, rfl, ?_⟩
  · -- maximum
    rcases foldl_max_attained t h with hm | ⟨z, hz, hm⟩
    · refine ⟨h, List.mem_cons_self h t, ?_, ?_⟩
      · intro x hx
        rcases List.mem_cons.mp hx with rfl | hx'
        · exact le_trans (init_le_foldl_max t x) (le_of_eq hm)
        · exact le_trans (mem_le_foldl_max t h x hx') (le_of_eq hm)
      · simp [List.getD, maxCoeff, hm]
    · refine ⟨z, List.mem_cons_of_mem h hz, ?_, ?_⟩
      · intro x hx
        rcases List.mem_cons.mp hx with rfl | hx'
        · exact le_trans (init_le_foldl_max t x) (le_of_eq hm)
        · exact le_trans (mem_le_foldl_max t h x hx') (le_of_eq hm)
      · simp [List.getD, maxCoeff, hm]
  · -- minimum
    rcases foldl_min_attained t h with hm | ⟨z, hz, hm⟩
    · refine ⟨h, List.mem_cons_self h t, ?_, ?_⟩
      · intro x hx
        rcases List.mem_cons.mp hx with rfl | hx'
        · exact le_trans (le_of_eq hm.symm) (foldl_min_le_init t x)
        · exact le_trans (le_of_eq hm.symm) (foldl_min_le_mem t h x hx')
      · simp [List.getD, minCoeff, hm]
    · refine ⟨z, List.mem_cons_of_mem h hz, ?_, ?_⟩
      · intro x hx
        rcases List.mem_cons.mp hx with rfl | hx'
        · exact le_trans (le_of_eq hm.symm) (foldl_min_le_init t x)
        · exact le_trans (le_of_eq hm.symm) (foldl_min_le_mem t h x hx')
      · simp [List.getD, minCoeff, hm]
  · -- mean
    simp only [List.getD_cons_succ, List.getD_cons_zero]
    rw [meanAndStd_fst (h :: t) (List.cons_ne_nil h t)]
  · -- sample standard deviation, N ≥ 2
    intro hlen2
    simp only [List.getD_cons_succ, List.getD_cons_zero]
    exact meanAndStd_snd_of_two_le (h :: t) hlen2
  · -- sample standard deviation, N = 1
    intro hlen1
    simp only [List.getD_cons_succ, List.getD_cons_zero]
    exact meanAndStd_snd_of_lt_two (h :: t) (by omega)
  · -- median
    refine ⟨(h :: t).mergeSort (fun a b => decide (a ≤ b)),
      List.mergeSort_perm (h :: t) _, List.sorted_mergeSort' (h :: t), ?_⟩
    simp only [List.getD_cons_succ, List.getD_cons_zero]
    rfl

/-- C2, witness: the collection `[4, 1, 3, 2]` of the spec's median-policy
example; the last conjunct checks the upper-median `3` explicitly. -/
theorem residual_stats_correct_witness :
    (([4, 1, 3, 2] : List ℚ) ≠ []) ∧
    ((do_residuals_stats (fun _ => 0) [4, 1, 3, 2]).length = 6 ∧
     (∃ m ∈ ([4, 1, 3, 2] : List ℚ), (∀ x ∈ ([4, 1, 3, 2] : List ℚ), x ≤ m) ∧
       (do_residuals_stats (fun _ => 0) [4, 1, 3, 2]).getD 0 0 = (m : ℝ)) ∧
     (∃ m ∈ ([4, 1, 3, 2] : List ℚ), (∀ x ∈ ([4, 1, 3, 2] : List ℚ), m ≤ x) ∧
       (do_residuals_stats (fun _ => 0) [4, 1, 3, 2]).getD 1 0 = (m : ℝ)) ∧
     (do_residuals_stats (fun _ => 0) [4, 1, 3, 2]).getD 2 0 =
       ((([4, 1, 3, 2] : List ℚ).sum / ([4, 1, 3, 2] : List ℚ).length : ℚ) : ℝ) ∧
     (2 ≤ ([4, 1, 3, 2] : List ℚ).length →
       (do_residuals_stats (fun _ => 0) [4, 1, 3, 2]).getD 3 0 =
         Real.sqrt ((([4, 1, 3, 2] : List ℚ).map
             (fun x => (x - ([4, 1, 3, 2] : List ℚ).sum /
               ([4, 1, 3, 2] : List ℚ).length) ^ 2)).sum /
           ((([4, 1, 3, 2] : List ℚ).length : ℚ) - 1) : ℚ)) ∧
     (([4, 1, 3, 2] : List ℚ).length = 1 →
       (do_residuals_stats (fun _ => 0) [4, 1, 3, 2]).getD 3 0 = 0) ∧
     (do_residuals_stats (fun _ => 0) [4, 1, 3, 2]).getD 4 0 =
       Real.sqrt ((([4, 1, 3, 2] : List ℚ).map (fun x => x ^ 2)).sum /
         (([4, 1, 3, 2] : List ℚ).length : ℚ) : ℚ) ∧
     (∃ w : List ℚ, w.Perm ([4, 1, 3, 2] : List ℚ) ∧ w.Sorted (· ≤ ·) ∧
       (do_residuals_stats (fun _ => 0) [4, 1, 3, 2]).getD 5 0 =
         ((w.getD (([4, 1, 3, 2] : List ℚ).length / 2) 0 : ℚ) : ℝ))) ∧
    (do_residuals_stats (fun _ => 0) [4, 1, 3, 2]).getD 5 0 = ((3 : ℚ) : ℝ) := by
  have hms : ([4, 1, 3, 2] : List ℚ).mergeSort (fun a b => decide (a ≤ b)) =
      [1, 2, 3, 4] :=
    List.eq_of_perm_of_sorted
      ((List.mergeSort_perm _ _).trans (by decide))
      (List.sorted_mergeSort' _) (by decide)
  refine ⟨by decide, residual_stats_correct (fun _ => 0) [4, 1, 3, 2] (by decide), ?_⟩
  rw [do_residuals_stats_cons]
  simp [List.getD, median_nth, hms]

/-- C4, counterexample.  The claim says the six entries are all zero for an
empty collection, but the function returns right after `stats.resize(6)`
and Eigen's `resize` leaves the six coefficients uninitialized: with memory
contents all `1`, the result is not the zero vector. -/
theorem stats_empty_not_zero :
    do_residuals_stats (fun _ => 1) [] ≠ [0, 0, 0, 0, 0, 0] := by
  have h : do_residuals_stats (fun _ => 1) [] = [1, 1, 1, 1, 1, 1] := by
    simp [do_residuals_stats, List.ofFn_succ]
  rw [h]
  simp

/-- C4, amended.  For an empty collection the function raises no error and
returns a 6-element vector, but its contents are whatever the `resize`
left in memory (Eigen does not initialize them), not a guaranteed zero
default. -/
theorem stats_empty_returns_uninit (uninit : Fin 6 → ℝ) :
    (do_residuals_stats uninit []).length = 6 ∧
    do_residuals_stats uninit [] = List.ofFn uninit := by
  constructor
  · simp [do_residuals_stats]
  · rfl

/-! ## Theorems: pipeline trace (C5, C6, C7, C8, C9, C10) -/

/-- On a surviving configuration the run reduces to its event trace and a
zero exit. -/
lemma dem_gmrf_run_ok (raw : ℕ → ℕ → ℚ) (N nCols : ℕ) (perm : List ℕ)
    (ratio resolution std_obs : ℚ)
    (h3 : 3 ≤ nCols) (h0 : 0 ≤ ratio) (h1 : ratio ≤ 1) (hres : 0 < resolution) :
    dem_gmrf_run raw N nCols perm ratio resolution std_obs =
      (insert_events raw nCols std_obs perm (N - N_chk_pts ratio N) ++
       [Event.solve] ++
       (if N_chk_pts ratio N ≠ 0 then
          predict_events raw perm (N - N_chk_pts ratio N) (N_chk_pts ratio N) ++
          [.writeText "_chkpt_residuals_NN.txt" (N_chk_pts ratio N),
           .writeText "_chkpt_residuals_Bi.txt" (N_chk_pts ratio N),
           .writeText "_chkpt_residuals_NN_stats.txt" 6,
           .writeText "_chkpt_residuals_Bi_stats.txt" 6]
        else []) ++
       [.writeText "_pts_map.txt" (N - N_chk_pts ratio N),
        .writeText "_pts_chk.txt" (N_chk_pts ratio N),
        .saveArtifact "_grmf",
        .saveArtifact "_grmf_draw.m"],
       .ok 0) := by
  unfold dem_gmrf_run
  rw [if_neg (by omega), if_neg (not_not_intro ⟨h0, h1⟩),
    if_neg (not_not_intro (show setSize_resolution_ok resolution from hres))]

lemma mem_insert_events (e : Event) (raw : ℕ → ℕ → ℚ) (nCols : ℕ)
    (std_obs : ℚ) (perm : List ℕ) (nIns : ℕ) :
    e ∈ insert_events raw nCols std_obs perm nIns ↔
      ∃ k < nIns, e = Event.insert (perm.getD k 0) (raw (perm.getD k 0) 2)
        (raw (perm.getD k 0) 0) (raw (perm.getD k 0) 1) false true
        (reading_stddev raw nCols std_obs (perm.getD k 0)) := by
  simp only [insert_events, List.mem_map, List.mem_range]
  constructor
  · rintro ⟨k, hk, rfl⟩
    exact ⟨k, hk, rfl⟩
  · rintro ⟨k, hk, rfl⟩
    exact ⟨k, hk, rfl⟩

lemma insert_events_length (raw : ℕ → ℕ → ℚ) (nCols : ℕ) (std_obs : ℚ)
    (perm : List ℕ) (nIns : ℕ) :
    (insert_events raw nCols std_obs perm nIns).length = nIns := by
  simp [insert_events]

lemma insert_events_all_insert (raw : ℕ → ℕ → ℚ) (nCols : ℕ) (std_obs : ℚ)
    (perm : List ℕ) (nIns : ℕ) :
    ∀ e ∈ insert_events raw nCols std_obs perm nIns, e.isInsert = true := by
  intro e he
  obtain ⟨k, _, rfl⟩ := (mem_insert_events e raw nCols std_obs perm nIns).mp he
  rfl

lemma predict_events_succ (raw : ℕ → ℕ → ℚ) (perm : List ℕ) (nIns n : ℕ) :
    predict_events raw perm nIns (n + 1) =
      predict_events raw perm nIns n ++
      [.predict (raw (chk_index perm nIns n) 0) (raw (chk_index perm nIns n) 1)
        .nearest,
       .predict (raw (chk_index perm nIns n) 0) (raw (chk_index perm nIns n) 1)
        .bilinear] := by
  unfold predict_events
  rw [List.range_succ, List.flatMap_append]
  rfl

lemma mem_predict_events (raw : ℕ → ℕ → ℚ) (perm : List ℕ) (nIns nChk k : ℕ)
    (hk : k < nChk) :
    Event.predict (raw (chk_index perm nIns k) 0) (raw (chk_index perm nIns k) 1)
        .nearest ∈ predict_events raw perm nIns nChk ∧
    Event.predict (raw (chk_index perm nIns k) 0) (raw (chk_index perm nIns k) 1)
        .bilinear ∈ predict_events raw perm nIns nChk := by
  constructor <;>
    exact List.mem_flatMap.mpr ⟨k, List.mem_range.mpr hk, by simp⟩

lemma predict_events_all_predict (raw : ℕ → ℕ → ℚ) (perm : List ℕ)
    (nIns nChk : ℕ) :
    ∀ e ∈ predict_events raw perm nIns nChk, e.isPredict = true := by
  intro e he
  obtain ⟨k, _, he'⟩ := List.mem_flatMap.mp he
  rcases List.mem_cons.mp he' with h | h'
  · rw [h]; rfl
  · rcases List.mem_cons.mp h' with h | h
    · rw [h]; rfl
    · exact absurd h (List.not_mem_nil e)

lemma countP_predict_events (raw : ℕ → ℕ → ℚ) (perm : List ℕ) (nIns nChk : ℕ) :
    (predict_events raw perm nIns nChk).countP Event.isPredict = 2 * nChk ∧
    (predict_events raw perm nIns nChk).countP Event.isPredictNN = nChk ∧
    (predict_events raw perm nIns nChk).countP Event.isPredictBi = nChk := by
  induction nChk with
  | zero => exact ⟨rfl, rfl, rfl⟩
  | succ n ih =>
      rw [predict_events_succ]
      refine ⟨?_, ?_, ?_⟩
      · rw [List.countP_append, ih.1]
        simp only [List.countP_cons, List.countP_nil]
        simp [Event.isPredict]
        omega
      · rw [List.countP_append, ih.2.1]
        simp only [List.countP_cons, List.countP_nil]
        simp [Event.isPredictNN, Event.isPredictBi]
      · rw [List.countP_append, ih.2.2]
        simp only [List.countP_cons, List.countP_nil]
        simp [Event.isPredictNN, Event.isPredictBi]

/-- Every insertion event of a surviving run's trace is one of the
`N_insert_pts` loop iterations of step [5]. -/
lemma run_insert_mem (raw : ℕ → ℕ → ℚ) (N nCols : ℕ) (perm : List ℕ)
    (ratio resolution std_obs : ℚ)
    (h3 : 3 ≤ nCols) (h0 : 0 ≤ ratio) (h1 : ratio ≤ 1) (hres : 0 < resolution)
    (i : ℕ) (z x y : ℚ) (u t : Bool) (s : ℚ)
    (hmem : Event.insert i z x y u t s ∈
      (dem_gmrf_run raw N nCols perm ratio resolution std_obs).1) :
    ∃ k < N - N_chk_pts ratio N,
      Event.insert i z x y u t s =
        Event.insert (perm.getD k 0) (raw (perm.getD k 0) 2)
          (raw (perm.getD k 0) 0) (raw (perm.getD k 0) 1) false true
          (reading_stddev raw nCols std_obs (perm.getD k 0)) := by
  rw [dem_gmrf_run_ok raw N nCols perm ratio resolution std_obs h3 h0 h1 hres]
    at hmem
  rcases List.mem_append.mp hmem with hL | hY
  · rcases List.mem_append.mp hL with hL2 | hX
    · rcases List.mem_append.mp hL2 with hA | hs
      · exact (mem_insert_events _ raw nCols std_obs perm _).mp hA
      · exfalso; simp at hs
    · exfalso
      by_cases hchk : N_chk_pts ratio N ≠ 0
      · rw [if_pos hchk] at hX
        rcases List.mem_append.mp hX with hP | hW
        · have := predict_events_all_predict raw perm _ _ _ hP
          simp [Event.isPredict] at this
        · simp at hW
      · rw [if_neg hchk] at hX
        simp at hX
  · exfalso; simp at hY

/-- Every text file written by a surviving run is one of the four
validation files (possible only when the checkpoint set is nonempty) or one
of the two unconditional point files. -/
lemma run_writeText_mem (raw : ℕ → ℕ → ℚ) (N nCols : ℕ) (perm : List ℕ)
    (ratio resolution std_obs : ℚ)
    (h3 : 3 ≤ nCols) (h0 : 0 ≤ ratio) (h1 : ratio ≤ 1) (hres : 0 < resolution)
    (sfx : String) (n : ℕ)
    (hmem : Event.writeText sfx n ∈
      (dem_gmrf_run raw N nCols perm ratio resolution std_obs).1) :
    (N_chk_pts ratio N ≠ 0 ∧
      ((sfx = "_chkpt_residuals_NN.txt" ∧ n = N_chk_pts ratio N) ∨
       (sfx = "_chkpt_residuals_Bi.txt" ∧ n = N_chk_pts ratio N) ∨
       (sfx = "_chkpt_residuals_NN_stats.txt" ∧ n = 6) ∨
       (sfx = "_chkpt_residuals_Bi_stats.txt" ∧ n = 6))) ∨
    ((sfx = "_pts_map.txt" ∧ n = N - N_chk_pts ratio N) ∨
     (sfx = "_pts_chk.txt" ∧ n = N_chk_pts ratio N)) := by
  rw [dem_gmrf_run_ok raw N nCols perm ratio resolution std_obs h3 h0 h1 hres]
    at hmem
  rcases List.mem_append.mp hmem with hL | hY
  · rcases List.mem_append.mp hL with hL2 | hX
    · rcases List.mem_append.mp hL2 with hA | hs
      · exfalso
        obtain ⟨k, _, heq⟩ :=
          (mem_insert_events _ raw nCols std_obs perm _).mp hA
        cases heq
      · exfalso; simp at hs
    · by_cases hchk : N_chk_pts ratio N ≠ 0
      · rw [if_pos hchk] at hX
        rcases List.mem_append.mp hX with hP | hW
        · exfalso
          have := predict_events_all_predict raw perm _ _ _ hP
          simp [Event.isPredict] at this
        · left
          refine ⟨hchk, ?_⟩
          simp only [List.mem_cons, List.not_mem_nil, or_false,
            Event.writeText.injEq] at hW
          exact hW
      · exfalso
        rw [if_neg hchk] at hX
        simp at hX
  · right
    simp only [List.mem_cons, List.not_mem_nil, or_false,
      Event.writeText.injEq] at hY
    rcases hY with h | h | h
    · exact Or.inl h
    · exact Or.inr h
    · exact absurd h (by simp)

/-- C7, main theorem.  In every surviving run: every insertion uses
`updateNow = false`; the solve (`updateMapEstimation`) occurs exactly once;
and the trace splits as `pre ++ solve :: post` where `pre` consists of
exactly the `N_insert_pts` insertions (and no prediction), and `post`
contains no insertion — so the single solve is strictly after all
insertions and strictly before any prediction query. -/
theorem solve_once_between (raw : ℕ → ℕ → ℚ) (N nCols : ℕ) (perm : List ℕ)
    (ratio resolution std_obs : ℚ)
    (h3 : 3 ≤ nCols) (h0 : 0 ≤ ratio) (h1 : ratio ≤ 1) (hres : 0 < resolution) :
    (∀ i z x y u t s, Event.insert i z x y u t s ∈
        (dem_gmrf_run raw N nCols perm ratio resolution std_obs).1 →
      u = false) ∧
    (dem_gmrf_run raw N nCols perm ratio resolution std_obs).1.countP
      Event.isSolve = 1 ∧
    (∃ pre post,
      (dem_gmrf_run raw N nCols perm ratio resolution std_obs).1 =
        pre ++ Event.solve :: post ∧
      (∀ e ∈ pre, e.isInsert = true) ∧
      pre.length = N - N_chk_pts ratio N ∧
      (∀ e ∈ post, e.isInsert = false) ∧
      (∀ e ∈ pre, e.isPredict = false)) := by
  refine ⟨?_, ?_, ?_⟩
  · intro i z x y u t s hmem
    obtain ⟨k, _, heq⟩ := run_insert_mem raw N nCols perm ratio resolution
      std_obs h3 h0 h1 hres i z x y u t s hmem
    simp only [Event.insert.injEq] at heq
    exact heq.2.2.2.2.1
  · rw [dem_gmrf_run_ok raw N nCols perm ratio resolution std_obs h3 h0 h1 hres]
    rw [List.countP_append, List.countP_append, List.countP_append]
    have hA : (insert_events raw nCols std_obs perm
        (N - N_chk_pts ratio N)).countP Event.isSolve = 0 := by
      rw [List.countP_eq_zero]
      intro e he
      obtain ⟨k, _, rfl⟩ := (mem_insert_events e raw nCols std_obs perm _).mp he
      simp [Event.isSolve]
    have hX : (if N_chk_pts ratio N ≠ 0 then
        predict_events raw perm (N - N_chk_pts ratio N) (N_chk_pts ratio N) ++
        [Event.writeText "_chkpt_residuals_NN.txt" (N_chk_pts ratio N),
         Event.writeText "_chkpt_residuals_Bi.txt" (N_chk_pts ratio N),
         Event.writeText "_chkpt_residuals_NN_stats.txt" 6,
         Event.writeText "_chkpt_residuals_Bi_stats.txt" 6]
      else ([] : List Event)).countP Event.isSolve = 0 := by
      by_cases hchk : N_chk_pts ratio N ≠ 0
      · rw [if_pos hchk, List.countP_eq_zero]
        intro e he
        rcases List.mem_append.mp he with hP | hW
        · have := predict_events_all_predict raw perm _ _ e hP
          cases e <;> simp_all [Event.isPredict, Event.isSolve]
        · rcases List.mem_cons.mp hW with h | h'
          · rw [h]; simp [Event.isSolve]
          · rcases List.mem_cons.mp h' with h | h'
            · rw [h]; simp [Event.isSolve]
            · rcases List.mem_cons.mp h' with h | h'
              · rw [h]; simp [Event.isSolve]
              · rcases List.mem_cons.mp h' with h | h'
                · rw [h]; simp [Event.isSolve]
                · exact absurd h' (List.not_mem_nil e)
      · rw [if_neg hchk]
        rfl
    rw [hA, hX]
    rfl
  · rw [dem_gmrf_run_ok raw N nCols perm ratio resolution std_obs h3 h0 h1 hres]
    refine ⟨insert_events raw nCols std_obs perm (N - N_chk_pts ratio N),
      (if N_chk_pts ratio N ≠ 0 then
          predict_events raw perm (N - N_chk_pts ratio N) (N_chk_pts ratio N) ++
          [.writeText "_chkpt_residuals_NN.txt" (N_chk_pts ratio N),
           .writeText "_chkpt_residuals_Bi.txt" (N_chk_pts ratio N),
           .writeText "_chkpt_residuals_NN_stats.txt" 6,
           .writeText "_chkpt_residuals_Bi_stats.txt" 6]
        else []) ++
       [.writeText "_pts_map.txt" (N - N_chk_pts ratio N),
        .writeText "_pts_chk.txt" (N_chk_pts ratio N),
        .saveArtifact "_grmf",
        .saveArtifact "_grmf_draw.m"], by simp, ?_, ?_, ?_, ?_⟩
    · exact insert_events_all_insert raw nCols std_obs perm _
    · exact insert_events_length raw nCols std_obs perm _
    · intro e he
      rcases List.mem_append.mp he with hX | hY
      · by_cases hchk : N_chk_pts ratio N ≠ 0
        · rw [if_pos hchk] at hX
          rcases List.mem_append.mp hX with hP | hW
          · have := predict_events_all_predict raw perm _ _ e hP
            cases e <;> simp_all [Event.isPredict, Event.isInsert]
          · rcases List.mem_cons.mp hW with h | h'
            · rw [h]; rfl
            · rcases List.mem_cons.mp h' with h | h'
              · rw [h]; rfl
              · rcases List.mem_cons.mp h' with h | h'
                · rw [h]; rfl
                · rcases List.mem_cons.mp h' with h | h'
                  · rw [h]; rfl
                  · exact absurd h' (List.not_mem_nil e)
        · rw [if_neg hchk] at hX
          exact absurd hX (List.not_mem_nil e)
      · rcases List.mem_cons.mp hY with h | h'
        · rw [h]; rfl
        · rcases List.mem_cons.mp h' with h | h'
          · rw [h]; rfl
          · rcases List.mem_cons.mp h' with h | h'
            · rw [h]; rfl
            · rcases List.mem_cons.mp h' with h | h'
              · rw [h]; rfl
              · exact absurd h' (List.not_mem_nil e)
    · intro e he
      obtain ⟨k, _, rfl⟩ := (mem_insert_events e raw nCols std_obs perm _).mp he
      rfl

/-- C7, witness: a concrete surviving run (`N = 3`, `nCols = 3`,
`ratio = 1/3`, resolution 1). -/
theorem solve_once_between_witness :
    3 ≤ 3 ∧ (0 : ℚ) ≤ 1/3 ∧ (1/3 : ℚ) ≤ 1 ∧ (0 : ℚ) < 1 ∧
    ((∀ i z x y u t s, Event.insert i z x y u t s ∈
        (dem_gmrf_run (fun i j => (i + j : ℚ)) 3 3 [1, 2, 0] (1/3) 1 (1/5)).1 →
      u = false) ∧
    (dem_gmrf_run (fun i j => (i + j : ℚ)) 3 3 [1, 2, 0] (1/3) 1 (1/5)).1.countP
      Event.isSolve = 1 ∧
    (∃ pre post,
      (dem_gmrf_run (fun i j => (i + j : ℚ)) 3 3 [1, 2, 0] (1/3) 1 (1/5)).1 =
        pre ++ Event.solve :: post ∧
      (∀ e ∈ pre, e.isInsert = true) ∧
      pre.length = 3 - N_chk_pts (1/3) 3 ∧
      (∀ e ∈ post, e.isInsert = false) ∧
      (∀ e ∈ pre, e.isPredict = false))) :=
  ⟨by omega, by norm_num, by norm_num, by norm_num,
    solve_once_between (fun i j => (i + j : ℚ)) 3 3 [1, 2, 0] (1/3) 1 (1/5)
      (by omega) (by norm_num) (by norm_num) (by norm_num)⟩

lemma predict_events_length (raw : ℕ → ℕ → ℚ) (perm : List ℕ) (nIns nChk : ℕ) :
    (predict_events raw perm nIns nChk).length = 2 * nChk := by
  induction nChk with
  | zero => rfl
  | succ n ih =>
      rw [predict_events_succ, List.length_append, ih]
      simp
      omega

lemma residuals_NN_getD (raw : ℕ → ℕ → ℚ) (predictZ : Interp → ℚ → ℚ → ℚ)
    (perm : List ℕ) (nIns nChk k : ℕ) (hk : k < nChk) :
    (residuals_NN raw predictZ perm nIns nChk).getD k 0 =
      raw (chk_index perm nIns k) 2 -
        predictZ .nearest (raw (chk_index perm nIns k) 0)
          (raw (chk_index perm nIns k) 1) := by
  unfold residuals_NN
  rw [List.getD_eq_getElem?_getD, List.getElem?_map, List.getElem?_range hk]
  rfl

lemma residuals_Bi_getD (raw : ℕ → ℕ → ℚ) (predictZ : Interp → ℚ → ℚ → ℚ)
    (perm : List ℕ) (nIns nChk k : ℕ) (hk : k < nChk) :
    (residuals_Bi raw predictZ perm nIns nChk).getD k 0 =
      raw (chk_index perm nIns k) 2 -
        predictZ .bilinear (raw (chk_index perm nIns k) 0)
          (raw (chk_index perm nIns k) 1) := by
  unfold residuals_Bi
  rw [List.getD_eq_getElem?_getD, List.getElem?_map, List.getElem?_range hk]
  rfl

/-- The prediction queries of a surviving run's trace are exactly the
step [7] loop: for each checkpoint in order, one nearest query then one
bilinear query. -/
lemma run_filter_predict (raw : ℕ → ℕ → ℚ) (N nCols : ℕ) (perm : List ℕ)
    (ratio resolution std_obs : ℚ)
    (h3 : 3 ≤ nCols) (h0 : 0 ≤ ratio) (h1 : ratio ≤ 1) (hres : 0 < resolution) :
    (dem_gmrf_run raw N nCols perm ratio resolution std_obs).1.filter
        Event.isPredict =
      predict_events raw perm (N - N_chk_pts ratio N) (N_chk_pts ratio N) := by
  rw [dem_gmrf_run_ok raw N nCols perm ratio resolution std_obs h3 h0 h1 hres]
  rw [List.filter_append, List.filter_append, List.filter_append]
  have hA : (insert_events raw nCols std_obs perm
      (N - N_chk_pts ratio N)).filter Event.isPredict = [] := by
    rw [List.filter_eq_nil_iff]
    intro e he
    obtain ⟨k, _, rfl⟩ := (mem_insert_events e raw nCols std_obs perm _).mp he
    simp [Event.isPredict]
  rw [hA]
  by_cases hchk : N_chk_pts ratio N ≠ 0
  · rw [if_pos hchk, List.filter_append]
    have hP : (predict_events raw perm (N - N_chk_pts ratio N)
        (N_chk_pts ratio N)).filter Event.isPredict =
        predict_events raw perm (N - N_chk_pts ratio N) (N_chk_pts ratio N) := by
      rw [List.filter_eq_self]
      exact predict_events_all_predict raw perm _ _
    rw [hP]
    simp [Event.isPredict]
  · rw [if_neg hchk]
    push_neg at hchk
    rw [hchk]
    simp [Event.isPredict, predict_events]

/-- C6, main theorem.  In every surviving run the prediction queries of
the whole trace are exactly, per checkpoint point, one nearest-cell query
and one bilinear query at that point's `(x, y)` — `2 * N_chk_pts` queries
in total, `N_chk_pts` per policy — and the two parallel residual
collections both have one entry per checkpoint equal to the point's
ground-truth z minus the corresponding policy's prediction. -/
theorem checkpoint_predictions (raw : ℕ → ℕ → ℚ) (N nCols : ℕ) (perm : List ℕ)
    (ratio resolution std_obs : ℚ) (predictZ : Interp → ℚ → ℚ → ℚ)
    (h3 : 3 ≤ nCols) (h0 : 0 ≤ ratio) (h1 : ratio ≤ 1) (hres : 0 < resolution) :
    (dem_gmrf_run raw N nCols perm ratio resolution std_obs).1.filter
        Event.isPredict =
      predict_events raw perm (N - N_chk_pts ratio N) (N_chk_pts ratio N) ∧
    (dem_gmrf_run raw N nCols perm ratio resolution std_obs).1.countP
        Event.isPredict = 2 * N_chk_pts ratio N ∧
    (dem_gmrf_run raw N nCols perm ratio resolution std_obs).1.countP
        Event.isPredictNN = N_chk_pts ratio N ∧
    (dem_gmrf_run raw N nCols perm ratio resolution std_obs).1.countP
        Event.isPredictBi = N_chk_pts ratio N ∧
    (residuals_NN raw predictZ perm (N - N_chk_pts ratio N)
        (N_chk_pts ratio N)).length = N_chk_pts ratio N ∧
    (residuals_Bi raw predictZ perm (N - N_chk_pts ratio N)
        (N_chk_pts ratio N)).length = N_chk_pts ratio N ∧
    (∀ k < N_chk_pts ratio N,
      Event.predict (raw (chk_index perm (N - N_chk_pts ratio N) k) 0)
          (raw (chk_index perm (N - N_chk_pts ratio N) k) 1) .nearest ∈
        (dem_gmrf_run raw N nCols perm ratio resolution std_obs).1 ∧
      Event.predict (raw (chk_index perm (N - N_chk_pts ratio N) k) 0)
          (raw (chk_index perm (N - N_chk_pts ratio N) k) 1) .bilinear ∈
        (dem_gmrf_run raw N nCols perm ratio resolution std_obs).1 ∧
      (residuals_NN raw predictZ perm (N - N_chk_pts ratio N)
          (N_chk_pts ratio N)).getD k 0 =
        raw (chk_index perm (N - N_chk_pts ratio N) k) 2 -
          predictZ .nearest (raw (chk_index perm (N - N_chk_pts ratio N) k) 0)
            (raw (chk_index perm (N - N_chk_pts ratio N) k) 1) ∧
      (residuals_Bi raw predictZ perm (N - N_chk_pts ratio N)
          (N_chk_pts ratio N)).getD k 0 =
        raw (chk_index perm (N - N_chk_pts ratio N) k) 2 -
          predictZ .bilinear (raw (chk_index perm (N - N_chk_pts ratio N) k) 0)
            (raw (chk_index perm (N - N_chk_pts ratio N) k) 1)) := by
  have hfilter := run_filter_predict raw N nCols perm ratio resolution std_obs
    h3 h0 h1 hres
  have hcount : (dem_gmrf_run raw N nCols perm ratio resolution std_obs).1.countP
      Event.isPredict = 2 * N_chk_pts ratio N := by
    rw [List.countP_eq_length_filter, hfilter]
    exact predict_events_length raw perm _ _
  refine ⟨hfilter, hcount, ?_, ?_, by simp [residuals_NN], by simp [residuals_Bi],
    ?_⟩
  · -- nearest-policy count: only predict events can satisfy `isPredictNN`,
    -- so counting over the filtered trace is counting over the whole trace
    have hsub : (dem_gmrf_run raw N nCols perm ratio resolution
        std_obs).1.countP Event.isPredictNN =
        ((dem_gmrf_run raw N nCols perm ratio resolution std_obs).1.filter
          Event.isPredict).countP Event.isPredictNN := by
      rw [List.countP_filter]
      apply List.countP_congr
      intro e _
      cases e <;> simp [Event.isPredictNN, Event.isPredict]
    rw [hsub, hfilter]
    exact (countP_predict_events raw perm _ _).2.1
  · have hsub : (dem_gmrf_run raw N nCols perm ratio resolution
        std_obs).1.countP Event.isPredictBi =
        ((dem_gmrf_run raw N nCols perm ratio resolution std_obs).1.filter
          Event.isPredict).countP Event.isPredictBi := by
      rw [List.countP_filter]
      apply List.countP_congr
      intro e _
      cases e <;> simp [Event.isPredictBi, Event.isPredict]
    rw [hsub, hfilter]
    exact (countP_predict_events raw perm _ _).2.2
  · intro k hk
    have hchk : N_chk_pts ratio N ≠ 0 := by omega
    have hmemP := mem_predict_events raw perm (N - N_chk_pts ratio N)
      (N_chk_pts ratio N) k hk
    have hNN : Event.predict (raw (chk_index perm (N - N_chk_pts ratio N) k) 0)
        (raw (chk_index perm (N - N_chk_pts ratio N) k) 1) .nearest ∈
        (dem_gmrf_run raw N nCols perm ratio resolution std_obs).1 := by
      rw [dem_gmrf_run_ok raw N nCols perm ratio resolution std_obs h3 h0 h1 hres]
      exact List.mem_append.mpr (Or.inl (List.mem_append.mpr (Or.inr (by
        rw [if_pos hchk]
        exact List.mem_append.mpr (Or.inl hmemP.1)))))
    have hBi : Event.predict (raw (chk_index perm (N - N_chk_pts ratio N) k) 0)
        (raw (chk_index perm (N - N_chk_pts ratio N) k) 1) .bilinear ∈
        (dem_gmrf_run raw N nCols perm ratio resolution std_obs).1 := by
      rw [dem_gmrf_run_ok raw N nCols perm ratio resolution std_obs h3 h0 h1 hres]
      exact List.mem_append.mpr (Or.inl (List.mem_append.mpr (Or.inr (by
        rw [if_pos hchk]
        exact List.mem_append.mpr (Or.inl hmemP.2)))))
    exact ⟨hNN, hBi, residuals_NN_getD raw predictZ perm _ _ k hk,
      residuals_Bi_getD raw predictZ perm _ _ k hk⟩

/-- C6, witness: `N = 3`, `ratio = 1/3` gives one checkpoint; abstract
estimator `predictZ = fun _ x y => x + y`. -/
theorem checkpoint_predictions_witness :
    3 ≤ 3 ∧ (0 : ℚ) ≤ 1/3 ∧ (1/3 : ℚ) ≤ 1 ∧ (0 : ℚ) < 1 ∧
    ((dem_gmrf_run (fun i j => (i + j : ℚ)) 3 3 [1, 2, 0] (1/3) 1 (1/5)).1.filter
        Event.isPredict =
      predict_events (fun i j => (i + j : ℚ)) [1, 2, 0]
        (3 - N_chk_pts (1/3) 3) (N_chk_pts (1/3) 3) ∧
    (dem_gmrf_run (fun i j => (i + j : ℚ)) 3 3 [1, 2, 0] (1/3) 1 (1/5)).1.countP
        Event.isPredict = 2 * N_chk_pts (1/3) 3 ∧
    (dem_gmrf_run (fun i j => (i + j : ℚ)) 3 3 [1, 2, 0] (1/3) 1 (1/5)).1.countP
        Event.isPredictNN = N_chk_pts (1/3) 3 ∧
    (dem_gmrf_run (fun i j => (i + j : ℚ)) 3 3 [1, 2, 0] (1/3) 1 (1/5)).1.countP
        Event.isPredictBi = N_chk_pts (1/3) 3 ∧
    (residuals_NN (fun i j => (i + j : ℚ)) (fun _ x y => x + y) [1, 2, 0]
        (3 - N_chk_pts (1/3) 3) (N_chk_pts (1/3) 3)).length =
      N_chk_pts (1/3) 3 ∧
    (residuals_Bi (fun i j => (i + j : ℚ)) (fun _ x y => x + y) [1, 2, 0]
        (3 - N_chk_pts (1/3) 3) (N_chk_pts (1/3) 3)).length =
      N_chk_pts (1/3) 3 ∧
    (∀ k < N_chk_pts (1/3) 3,
      Event.predict ((fun i j => (i + j : ℚ))
            (chk_index [1, 2, 0] (3 - N_chk_pts (1/3) 3) k) 0)
          ((fun i j => (i + j : ℚ))
            (chk_index [1, 2, 0] (3 - N_chk_pts (1/3) 3) k) 1) .nearest ∈
        (dem_gmrf_run (fun i j => (i + j : ℚ)) 3 3 [1, 2, 0] (1/3) 1 (1/5)).1 ∧
      Event.predict ((fun i j => (i + j : ℚ))
            (chk_index [1, 2, 0] (3 - N_chk_pts (1/3) 3) k) 0)
          ((fun i j => (i + j : ℚ))
            (chk_index [1, 2, 0] (3 - N_chk_pts (1/3) 3) k) 1) .bilinear ∈
        (dem_gmrf_run (fun i j => (i + j : ℚ)) 3 3 [1, 2, 0] (1/3) 1 (1/5)).1 ∧
      (residuals_NN (fun i j => (i + j : ℚ)) (fun _ x y => x + y) [1, 2, 0]
          (3 - N_chk_pts (1/3) 3) (N_chk_pts (1/3) 3)).getD k 0 =
        (fun i j => (i + j : ℚ))
            (chk_index [1, 2, 0] (3 - N_chk_pts (1/3) 3) k) 2 -
          (fun _ x y => (x + y : ℚ)) Interp.nearest
            ((fun i j => (i + j : ℚ))
              (chk_index [1, 2, 0] (3 - N_chk_pts (1/3) 3) k) 0)
            ((fun i j => (i + j : ℚ))
              (chk_index [1, 2, 0] (3 - N_chk_pts (1/3) 3) k) 1) ∧
      (residuals_Bi (fun i j => (i + j : ℚ)) (fun _ x y => x + y) [1, 2, 0]
          (3 - N_chk_pts (1/3) 3) (N_chk_pts (1/3) 3)).getD k 0 =
        (fun i j => (i + j : ℚ))
            (chk_index [1, 2, 0] (3 - N_chk_pts (1/3) 3) k) 2 -
          (fun _ x y => (x + y : ℚ)) Interp.bilinear
            ((fun i j => (i + j : ℚ))
              (chk_index [1, 2, 0] (3 - N_chk_pts (1/3) 3) k) 0)
            ((fun i j => (i + j : ℚ))
              (chk_index [1, 2, 0] (3 - N_chk_pts (1/3) 3) k) 1))) :=
  ⟨by omega, by norm_num, by norm_num, by norm_num,
    checkpoint_predictions (fun i j => (i + j : ℚ)) 3 3 [1, 2, 0] (1/3) 1 (1/5)
      (fun _ x y => x + y) (by omega) (by norm_num) (by norm_num) (by norm_num)⟩

/-- C5, main theorem.  With checkpoint ratio `0.0` the checkpoint set is
empty, so the step [7] validation block is skipped entirely: the trace
contains no prediction query, every text file written is one of the two
unconditional point files (in particular none of the four
`_chkpt_residuals_*` files), and the run still returns exit status 0. -/
theorem ratio_zero_skips_validation (raw : ℕ → ℕ → ℚ) (N nCols : ℕ)
    (perm : List ℕ) (resolution std_obs : ℚ)
    (h3 : 3 ≤ nCols) (hres : 0 < resolution) :
    (dem_gmrf_run raw N nCols perm 0 resolution std_obs).2 = .ok 0 ∧
    (dem_gmrf_run raw N nCols perm 0 resolution std_obs).2.exitCode = 0 ∧
    (dem_gmrf_run raw N nCols perm 0 resolution std_obs).1.countP
      Event.isPredict = 0 ∧
    (∀ sfx n, Event.writeText sfx n ∈
        (dem_gmrf_run raw N nCols perm 0 resolution std_obs).1 →
      sfx = "_pts_map.txt" ∨ sfx = "_pts_chk.txt") := by
  have hchk0 : N_chk_pts 0 N = 0 := N_chk_pts_ratio_zero N
  have h0 : (0 : ℚ) ≤ 0 := le_refl 0
  have h1 : (0 : ℚ) ≤ 1 := by norm_num
  refine ⟨?_, ?_, ?_, ?_⟩
  · rw [dem_gmrf_run_ok raw N nCols perm 0 resolution std_obs h3 h0 h1 hres]
  · rw [dem_gmrf_run_ok raw N nCols perm 0 resolution std_obs h3 h0 h1 hres]
    rfl
  · rw [List.countP_eq_length_filter,
      run_filter_predict raw N nCols perm 0 resolution std_obs h3 h0 h1 hres,
      predict_events_length, hchk0]
  · intro sfx n hmem
    rcases run_writeText_mem raw N nCols perm 0 resolution std_obs
        h3 h0 h1 hres sfx n hmem with ⟨hne, _⟩ | h | h
    · exact absurd hchk0 hne
    · exact Or.inl h.1
    · exact Or.inr h.1

/-- C5, witness: `N = 3`, ratio 0. -/
theorem ratio_zero_skips_validation_witness :
    3 ≤ 3 ∧ (0 : ℚ) < 1 ∧
    ((dem_gmrf_run (fun i j => (i + j : ℚ)) 3 3 [1, 2, 0] 0 1 (1/5)).2 =
        .ok 0 ∧
     (dem_gmrf_run (fun i j => (i + j : ℚ)) 3 3 [1, 2, 0] 0 1 (1/5)).2.exitCode
        = 0 ∧
     (dem_gmrf_run (fun i j => (i + j : ℚ)) 3 3 [1, 2, 0] 0 1 (1/5)).1.countP
        Event.isPredict = 0 ∧
     (∀ sfx n, Event.writeText sfx n ∈
        (dem_gmrf_run (fun i j => (i + j : ℚ)) 3 3 [1, 2, 0] 0 1 (1/5)).1 →
       sfx = "_pts_map.txt" ∨ sfx = "_pts_chk.txt")) :=
  ⟨by omega, by norm_num,
    ratio_zero_skips_validation (fun i j => (i + j : ℚ)) 3 3 [1, 2, 0] 1 (1/5)
      (by omega) (by norm_num)⟩

/-- C8, main theorem.  Every insertion of a surviving run carries the
stddev dictated by the table's column count: with exactly 3 columns the
configured global default `std_obs` (whose command-line default is 0.20),
with 4 or more columns the row's own column-4 value `raw i 3`; and every
one of the `N_insert_pts` loop iterations does insert its row with that
stddev. -/
theorem stddev_policy (raw : ℕ → ℕ → ℚ) (N nCols : ℕ) (perm : List ℕ)
    (ratio resolution std_obs : ℚ)
    (h3 : 3 ≤ nCols) (h0 : 0 ≤ ratio) (h1 : ratio ≤ 1) (hres : 0 < resolution) :
    (∀ i z x y u t s, Event.insert i z x y u t s ∈
        (dem_gmrf_run raw N nCols perm ratio resolution std_obs).1 →
      (nCols = 3 → s = std_obs) ∧ (4 ≤ nCols → s = raw i 3)) ∧
    (∀ k < N - N_chk_pts ratio N,
      Event.insert (perm.getD k 0) (raw (perm.getD k 0) 2)
        (raw (perm.getD k 0) 0) (raw (perm.getD k 0) 1) false true
        (reading_stddev raw nCols std_obs (perm.getD k 0)) ∈
        (dem_gmrf_run raw N nCols perm ratio resolution std_obs).1) := by
  constructor
  · intro i z x y u t s hmem
    obtain ⟨k, _, heq⟩ := run_insert_mem raw N nCols perm ratio resolution
      std_obs h3 h0 h1 hres i z x y u t s hmem
    simp only [Event.insert.injEq] at heq
    obtain ⟨hi, _, _, _, _, _, hs⟩ := heq
    rw [← hi] at hs
    constructor
    · intro hc3
      rw [hs, reading_stddev, if_pos hc3]
    · intro hc4
      rw [hs, reading_stddev, if_neg (by omega)]
  · intro k hk
    rw [dem_gmrf_run_ok raw N nCols perm ratio resolution std_obs h3 h0 h1 hres]
    exact List.mem_append.mpr (Or.inl (List.mem_append.mpr (Or.inl
      (List.mem_append.mpr (Or.inl
        ((mem_insert_events _ raw nCols std_obs perm _).mpr ⟨k, hk, rfl⟩))))))

/-- C8, witness: a 4-column table, so each insertion carries its row's
column-4 stddev. -/
theorem stddev_policy_witness :
    3 ≤ 4 ∧ (0 : ℚ) ≤ 1/3 ∧ (1/3 : ℚ) ≤ 1 ∧ (0 : ℚ) < 1 ∧
    ((∀ i z x y u t s, Event.insert i z x y u t s ∈
        (dem_gmrf_run raw_w 3 4 [1, 2, 0] (1/3) 1 (1/5)).1 →
      (4 = 3 → s = 1/5) ∧ (4 ≤ 4 → s = raw_w i 3)) ∧
    (∀ k < 3 - N_chk_pts (1/3) 3,
      Event.insert ([1, 2, 0].getD k 0)
        (raw_w ([1, 2, 0].getD k 0) 2)
        (raw_w ([1, 2, 0].getD k 0) 0)
        (raw_w ([1, 2, 0].getD k 0) 1) false true
        (reading_stddev raw_w 4 (1/5) ([1, 2, 0].getD k 0)) ∈
        (dem_gmrf_run raw_w 3 4 [1, 2, 0] (1/3) 1 (1/5)).1)) :=
  ⟨by omega, by norm_num, by norm_num, by norm_num,
    stddev_policy raw_w 3 4 [1, 2, 0] (1/3) 1 (1/5)
      (by omega) (by norm_num) (by norm_num) (by norm_num)⟩

/-- C9, main theorem.  A checkpoint ratio outside `[0,1]` (the `ASSERT_` at
line 122) or a non-positive resolution (the estimator's `setSize`
validation at line 152) aborts the run fatally — `main` catches the thrown
exception and exits 1 — and the abort happens before any heavy
computation: the event trace is empty, so no insertion, no solve, no
prediction and no file output ever happened. -/
theorem invalid_config_aborts (raw : ℕ → ℕ → ℚ) (N nCols : ℕ) (perm : List ℕ)
    (ratio resolution std_obs : ℚ)
    (hbad : ¬(0 ≤ ratio ∧ ratio ≤ 1) ∨ resolution ≤ 0) :
    dem_gmrf_run raw N nCols perm ratio resolution std_obs = ([], .fatal) ∧
    (dem_gmrf_run raw N nCols perm ratio resolution std_obs).2.exitCode = 1 := by
  have hmain : dem_gmrf_run raw N nCols perm ratio resolution std_obs =
      ([], .fatal) := by
    unfold dem_gmrf_run
    by_cases hc : nCols < 3
    · rw [if_pos hc]
    · rw [if_neg hc]
      rcases hbad with hratio | hresol
      · rw [if_pos hratio]
      · by_cases hratio' : ¬(0 ≤ ratio ∧ ratio ≤ 1)
        · rw [if_pos hratio']
        · rw [if_neg hratio',
            if_pos (show ¬setSize_resolution_ok resolution from not_lt.mpr hresol)]
  exact ⟨hmain, by rw [hmain]; rfl⟩

/-- C9, witness: ratio `2` is outside `[0,1]`. -/
theorem invalid_config_aborts_witness :
    (¬((0 : ℚ) ≤ 2 ∧ (2 : ℚ) ≤ 1) ∨ (1 : ℚ) ≤ 0) ∧
    (dem_gmrf_run (fun i j => (i + j : ℚ)) 3 3 [1, 2, 0] 2 1 (1/5) =
        ([], .fatal) ∧
     (dem_gmrf_run (fun i j => (i + j : ℚ)) 3 3 [1, 2, 0] 2 1 (1/5)).2.exitCode
        = 1) :=
  ⟨Or.inl (by norm_num),
    invalid_config_aborts (fun i j => (i + j : ℚ)) 3 3 [1, 2, 0] 2 1 (1/5)
      (Or.inl (by norm_num))⟩

/-- C10, main theorem.  Even with an empty checkpoint set the step [9]
output stage runs unconditionally: `_pts_chk.txt` is still created (with
zero data lines), along with `_pts_map.txt` and the two map artifacts;
only the four `_chkpt_residuals_*` files are absent, being guarded by the
`if (N_chk_pts)` test of line 198. -/
theorem output_stage_unconditional (raw : ℕ → ℕ → ℚ) (N nCols : ℕ)
    (perm : List ℕ) (ratio resolution std_obs : ℚ)
    (h3 : 3 ≤ nCols) (h0 : 0 ≤ ratio) (h1 : ratio ≤ 1) (hres : 0 < resolution)
    (hchk : N_chk_pts ratio N = 0) :
    Event.writeText "_pts_chk.txt" 0 ∈
      (dem_gmrf_run raw N nCols perm ratio resolution std_obs).1 ∧
    Event.writeText "_pts_map.txt" (N - N_chk_pts ratio N) ∈
      (dem_gmrf_run raw N nCols perm ratio resolution std_obs).1 ∧
    Event.saveArtifact "_grmf" ∈
      (dem_gmrf_run raw N nCols perm ratio resolution std_obs).1 ∧
    Event.saveArtifact "_grmf_draw.m" ∈
      (dem_gmrf_run raw N nCols perm ratio resolution std_obs).1 ∧
    (∀ n, Event.writeText "_chkpt_residuals_NN.txt" n ∉
      (dem_gmrf_run raw N nCols perm ratio resolution std_obs).1) ∧
    (∀ n, Event.writeText "_chkpt_residuals_Bi.txt" n ∉
      (dem_gmrf_run raw N nCols perm ratio resolution std_obs).1) ∧
    (∀ n, Event.writeText "_chkpt_residuals_NN_stats.txt" n ∉
      (dem_gmrf_run raw N nCols perm ratio resolution std_obs).1) ∧
    (∀ n, Event.writeText "_chkpt_residuals_Bi_stats.txt" n ∉
      (dem_gmrf_run raw N nCols perm ratio resolution std_obs).1) := by
  have hY : ∀ e ∈ ([Event.writeText "_pts_map.txt" (N - N_chk_pts ratio N),
      Event.writeText "_pts_chk.txt" (N_chk_pts ratio N),
      Event.saveArtifact "_grmf",
      Event.saveArtifact "_grmf_draw.m"] : List Event),
      e ∈ (dem_gmrf_run raw N nCols perm ratio resolution std_obs).1 := by
    intro e he
    rw [dem_gmrf_run_ok raw N nCols perm ratio resolution std_obs h3 h0 h1 hres]
    exact List.mem_append.mpr (Or.inr he)
  have hnores : ∀ sfx n, Event.writeText sfx n ∈
      (dem_gmrf_run raw N nCols perm ratio resolution std_obs).1 →
      sfx = "_pts_map.txt" ∨ sfx = "_pts_chk.txt" := by
    intro sfx n hmem
    rcases run_writeText_mem raw N nCols perm ratio resolution std_obs
        h3 h0 h1 hres sfx n hmem with ⟨hne, _⟩ | h | h
    · exact absurd hchk hne
    · exact Or.inl h.1
    · exact Or.inr h.1
  refine ⟨?_, ?_, ?_, ?_, ?_, ?_, ?_, ?_⟩
  · have := hY (Event.writeText "_pts_chk.txt" (N_chk_pts ratio N)) (by simp)
    rwa [hchk] at this
  · exact hY _ (by simp)
  · exact hY _ (by simp)
  · exact hY _ (by simp)
  · intro n hmem
    rcases hnores _ _ hmem with h | h <;> simp at h
  · intro n hmem
    rcases hnores _ _ hmem with h | h <;> simp at h
  · intro n hmem
    rcases hnores _ _ hmem with h | h <;> simp at h
  · intro n hmem
    rcases hnores _ _ hmem with h | h <;> simp at h

/-- C10, witness: `N = 3`, ratio 0 (empty checkpoint set). -/
theorem output_stage_unconditional_witness :
    3 ≤ 3 ∧ (0 : ℚ) ≤ 0 ∧ (0 : ℚ) ≤ 1 ∧ (0 : ℚ) < 1 ∧ N_chk_pts 0 3 = 0 ∧
    (Event.writeText "_pts_chk.txt" 0 ∈
      (dem_gmrf_run (fun i j => (i + j : ℚ)) 3 3 [1, 2, 0] 0 1 (1/5)).1 ∧
    Event.writeText "_pts_map.txt" (3 - N_chk_pts 0 3) ∈
      (dem_gmrf_run (fun i j => (i + j : ℚ)) 3 3 [1, 2, 0] 0 1 (1/5)).1 ∧
    Event.saveArtifact "_grmf" ∈
      (dem_gmrf_run (fun i j => (i + j : ℚ)) 3 3 [1, 2, 0] 0 1 (1/5)).1 ∧
    Event.saveArtifact "_grmf_draw.m" ∈
      (dem_gmrf_run (fun i j => (i + j : ℚ)) 3 3 [1, 2, 0] 0 1 (1/5)).1 ∧
    (∀ n, Event.writeText "_chkpt_residuals_NN.txt" n ∉
      (dem_gmrf_run (fun i j => (i + j : ℚ)) 3 3 [1, 2, 0] 0 1 (1/5)).1) ∧
    (∀ n, Event.writeText "_chkpt_residuals_Bi.txt" n ∉
      (dem_gmrf_run (fun i j => (i + j : ℚ)) 3 3 [1, 2, 0] 0 1 (1/5)).1) ∧
    (∀ n, Event.writeText "_chkpt_residuals_NN_stats.txt" n ∉
      (dem_gmrf_run (fun i j => (i + j : ℚ)) 3 3 [1, 2, 0] 0 1 (1/5)).1) ∧
    (∀ n, Event.writeText "_chkpt_residuals_Bi_stats.txt" n ∉
      (dem_gmrf_run (fun i j => (i + j : ℚ)) 3 3 [1, 2, 0] 0 1 (1/5)).1)) :=
  ⟨by omega, by norm_num, by norm_num, by norm_num, N_chk_pts_ratio_zero 3,
    output_stage_unconditional (fun i j => (i + j : ℚ)) 3 3 [1, 2, 0] 0 1 (1/5)
      (by omega) (by norm_num) (by norm_num) (by norm_num)
      (N_chk_pts_ratio_zero 3)⟩

end DemGmrf
